import Mathlib

/-!
Shallow embedding of `examples/vision/image_classification_with_vision_transformer.py`.

The script builds a Vision Transformer classifier out of Keras layers and runs
a train / checkpoint / evaluate loop.  We embed:

* the hyperparameter constants (script lines 40-64);
* the value-level semantics of `Patches.call`, i.e. of
  `tf.image.extract_patches` with `padding="VALID"` followed by the reshape to
  `[batch, -1, patch_dims]`, per image (the operation is pointwise in the batch
  dimension);
* the value-level semantics of `PatchEncoder.call`
  (`projection(patch) + position_embedding(range(num_patches))`);
* the layer graph of `create_vit_classifier` as a deep-embedded expression
  tree with a static shape semantics mirroring the Keras layers' shape rules;
* the event trace of `run_experiment` (fit with a `ModelCheckpoint` callback,
  `load_weights`, `evaluate`), with the callback's documented
  `save_best_only` / `monitor="val_accuracy"` behaviour.
-/

namespace ViT

/-! ## Hyperparameters (script lines 40-64) -/

def num_classes : Nat := 100

def input_shape : List Nat := [32, 32, 3]

def learning_rate : ℚ := 1 / 1000

def weight_decay : ℚ := 1 / 10000

def batch_size : Nat := 256

def num_epochs : Nat := 100

def patch_size : Nat := 4

def image_size : Nat := 32

def num_patches : Nat := (image_size / patch_size) ^ 2

def projection_dims : Nat := 64

def num_heads : Nat := 4

def transformer_units : List Nat := [projection_dims * 2, projection_dims]

def transfomer_layers : Nat := 8

def mlp_head_units : List Nat := [2048, 1024]

/-! ## Patch extraction (`Patches.call`, script lines 103-119)

`tf.image.extract_patches` with `sizes = strides = [1, P, P, 1]` and
`padding = "VALID"` emits, for each grid cell that fits entirely inside the
image, the patch contents in row-major (row, column, channel) order; with
`VALID` padding the number of grid cells per spatial side is
`(S - P) / P + 1` when `P ≤ S` and `0` otherwise — incomplete cells at the
right / bottom edge are dropped.  The subsequent
`tf.reshape(patches, [batch_size, -1, patch_dims])` flattens the grid into a
sequence of patch vectors.  We model a single image as a function from
(row, column, channel) to a pixel value. -/

def validGrid (S P : Nat) : Nat :=
  if P ≤ S then (S - P) / P + 1 else 0

def patchAt (P C : Nat) (img : Nat → Nat → Nat → Int) (i j : Nat) : List Int :=
  (List.range P).flatMap fun di =>
    (List.range P).flatMap fun dj =>
      (List.range C).map fun c => img (i * P + di) (j * P + dj) c

def extractPatches (S P C : Nat) (img : Nat → Nat → Nat → Int) : List (List Int) :=
  (List.range (validGrid S P)).flatMap fun i =>
    (List.range (validGrid S P)).map fun j => patchAt P C img i j

/-- The `Patches` layer configuration: `__init__` stores `patch_size` and
performs no validation of any kind (script lines 104-106). -/
structure Patches where
  patch_size : Nat

def Patches.init (p : Nat) : Patches := ⟨p⟩

/-- A concrete 5×5 single-channel image used to exhibit silent truncation:
pixel (r, c) holds the value 8·r + c, so all 25 pixel values are distinct. -/
def demoImg : Nat → Nat → Nat → Int := fun r c _ => 8 * (r : Int) + (c : Int)

/-! ## Patch encoding (`PatchEncoder`, script lines 156-168)

`PatchEncoder.call` computes
`self.projection(patch) + self.position_embedding(tf.range(0, num_patches))`.
The `Dense` projection applies `x ↦ x·W + b` to the last axis, i.e. to each
patch vector separately; the `Embedding` lookup at index `i` returns row `i`
of its learned table; the `+` adds the position row to the projected patch at
the same sequence index.  Learned parameters are modelled as explicit data. -/

def dot (xs ys : List Int) : Int := (List.zipWith (· * ·) xs ys).sum

def denseApply (W : List (List Int)) (b : List Int) (x : List Int) : List Int :=
  List.zipWith (fun col bias => dot x col + bias) W b

def vecAdd (xs ys : List Int) : List Int := List.zipWith (· + ·) xs ys

def vecSub (xs ys : List Int) : List Int := List.zipWith (· - ·) xs ys

structure PatchEncoder where
  num_patches : Nat
  projW : List (List Int)
  projB : List Int
  posTable : List (List Int)

def PatchEncoder.call (e : PatchEncoder) (patchSeq : List (List Int)) :
    List (List Int) :=
  List.zipWith
    (fun p i => vecAdd (denseApply e.projW e.projB p) (e.posTable.getD i []))
    patchSeq (List.range e.num_patches)

/-- The positional offset the encoder adds at sequence index `i`: the output
at index `i` minus the linear projection of the input patch at index `i`. -/
def positionalOffset (e : PatchEncoder) (patchSeq : List (List Int)) (i : Nat) :
    List Int :=
  vecSub ((e.call patchSeq).getD i []) (denseApply e.projW e.projB (patchSeq.getD i []))

/-! ## The layer graph of `create_vit_classifier` (script lines 190-226)

A deep embedding of the Keras functional-API graph the script builds.  Each
constructor is one layer application; `attn` is `layers.MultiHeadAttention`
applied to (query, value), `norm` is `layers.LayerNormalization`. -/

inductive Activation
  | gelu
  | linear
deriving DecidableEq

inductive Expr
  | input
  | augment (e : Expr)
  | patches (P : Nat) (e : Expr)
  | encode (n d : Nat) (e : Expr)
  | norm (e : Expr)
  | attn (heads keyDim : Nat) (rate : ℚ) (q kv : Expr)
  | add (a b : Expr)
  | dense (units : Nat) (act : Activation) (e : Expr)
  | dropout (rate : ℚ) (e : Expr)
  | flatten (e : Expr)
deriving DecidableEq

/-- The helper `mlp` (script lines 91-95): for each entry of `hidden_units`,
a `Dense` layer with `gelu` activation followed by `Dropout`. -/
def mlp (x : Expr) (hidden_units : List Nat) (dropout_rate : ℚ) : Expr :=
  hidden_units.foldl
    (fun x units => Expr.dropout dropout_rate (Expr.dense units Activation.gelu x))
    x

/-- One iteration of the transformer-block loop (script lines 200-214),
transcribed statement by statement. -/
def transformerBlock (encoded_patches : Expr) : Expr :=
  let x1 := Expr.norm encoded_patches
  let attention_output :=
    Expr.attn num_heads projection_dims (1 / 10) x1 x1
  let x2 := Expr.add attention_output encoded_patches
  let x3 := Expr.norm x2
  let x3b := mlp x3 transformer_units (1 / 10)
  Expr.add x3b x2

/-- The `for _ in range(transfomer_layers)` loop: sequentially reassigns
`encoded_patches` to the block output. -/
def applyBlocks : Nat → Expr → Expr
  | 0, e => e
  | n + 1, e => applyBlocks n (transformerBlock e)

/-- The classification head (script lines 216-223): LayerNormalization,
Flatten, Dropout(0.5), `mlp` over `mlp_head_units`, and the final
`Dense(num_classes)` whose `activation` argument is left at its default
`None` (modelled as `linear`). -/
def vitHead (encoded_patches : Expr) : Expr :=
  let representation := Expr.norm encoded_patches
  let representation := Expr.flatten representation
  let representation := Expr.dropout (1 / 2) representation
  let features := mlp representation mlp_head_units (1 / 2)
  Expr.dense num_classes Activation.linear features

def create_vit_classifier : Expr :=
  vitHead
    (applyBlocks transfomer_layers
      (Expr.encode num_patches projection_dims
        (Expr.patches patch_size (Expr.augment Expr.input))))

/-- The encoded-patches node of the graph, the input of the first block. -/
def encodedPatchesExpr : Expr :=
  Expr.encode num_patches projection_dims
    (Expr.patches patch_size (Expr.augment Expr.input))

/-- Static per-example shape semantics of the layer graph, mirroring the
Keras layers' shape rules.  Every layer in this graph acts pointwise in the
batch dimension (Dense and LayerNormalization act on the last axis, Flatten
keeps the batch axis and flattens the rest, and so on), so shapes are
tracked without the batch axis; `none` is a framework-raised shape error.
`patches` follows `tf.image.extract_patches` with `VALID` padding; `encode`
requires the sequence length to equal `num_patches` for the broadcast add of
the position embeddings; `add` requires equal shapes; `attn` returns the
query's shape (the default `output_shape` of `MultiHeadAttention` is the
query's last dimension); `dense` replaces the last dimension by `units`. -/
def shapeOf : Expr → Option (List Nat)
  | .input => some input_shape
  | .augment e => shapeOf e
  | .patches P e =>
      match shapeOf e with
      | some [h, w, c] => some [validGrid h P * validGrid w P, P * P * c]
      | _ => none
  | .encode n d e =>
      match shapeOf e with
      | some [m, _] => if m = n then some [n, d] else none
      | _ => none
  | .norm e => shapeOf e
  | .attn _ _ _ q kv =>
      match shapeOf q, shapeOf kv with
      | some [tq, dq], some [_, _] => some [tq, dq]
      | _, _ => none
  | .add a b =>
      match shapeOf a, shapeOf b with
      | some s1, some s2 => if s1 = s2 then some s1 else none
      | _, _ => none
  | .dense u _ e =>
      match shapeOf e with
      | some [] => none
      | some s => some (s.dropLast ++ [u])
      | none => none
  | .dropout _ e => shapeOf e
  | .flatten e =>
      match shapeOf e with
      | some s => some [s.prod]
      | none => none

/-- The model's output shape for a batch of `B` examples: the batch axis
prepended to the per-example output shape (every layer in the graph is
pointwise in the batch axis). -/
def outputShapeForBatch (B : Nat) : Option (List Nat) :=
  (shapeOf create_vit_classifier).map fun s => B :: s

/-! ## Spec-side pipeline definitions (for refinement claims)

These two definitions transcribe the spec's §4 prose for the transformer
block and the classification head; they are compared with the code-side
`transformerBlock` and `vitHead` above. -/

/-- Spec §4: layer normalization, then self-attention, then residual add
with the block input, then layer normalization, then the feed-forward MLP
(two dense layers with a smooth nonlinear activation and dropout), then
residual add. -/
def specTransformerBlock (x : Expr) : Expr :=
  let n1 := Expr.norm x
  let sa := Expr.attn num_heads projection_dims (1 / 10) n1 n1
  let r1 := Expr.add sa x
  let n2 := Expr.norm r1
  let ff :=
    Expr.dropout (1 / 10)
      (Expr.dense projection_dims Activation.gelu
        (Expr.dropout (1 / 10)
          (Expr.dense (projection_dims * 2) Activation.gelu n2)))
  Expr.add ff r1

/-- Spec §4: final normalization, flatten the full patch sequence (not
pooled), dropout, MLP, final linear layer producing per-class scores with no
activation. -/
def specClassifierHead (x : Expr) : Expr :=
  Expr.dense num_classes Activation.linear
    (Expr.dropout (1 / 2)
      (Expr.dense 1024 Activation.gelu
        (Expr.dropout (1 / 2)
          (Expr.dense 2048 Activation.gelu
            (Expr.dropout (1 / 2) (Expr.flatten (Expr.norm x)))))))

/-! ## The training driver `run_experiment` (script lines 234-267)

The run is modelled as an event trace: `model.fit` over the training data
with `validation_split=0.15` runs one epoch per entry of the list of
per-epoch validation accuracies; after each epoch the `ModelCheckpoint`
callback (`monitor="val_accuracy"`, `save_best_only=True`) writes the
parameters iff the monitored value strictly improves on the best seen so far
(the callback starts from negative infinity, modelled as `none`, and uses a
strict greater-than comparison).  After `fit`, the script calls
`load_weights` once and then `evaluate` once on the test partition. -/

inductive DataPart
  | train
  | test
deriving DecidableEq

inductive Ev
  | trainEpoch (part : DataPart) (epoch : Nat)
  | validate (part : DataPart) (epoch : Nat) (acc : ℚ)
  | ckptWrite (epoch : Nat)
  | ckptRead
  | evaluate (part : DataPart)
deriving DecidableEq

/-- Configuration of `keras.callbacks.ModelCheckpoint` (script lines 248-251). -/
structure CheckpointConfig where
  filepath : String
  monitor : String
  save_best_only : Bool

def checkpoint_callback : CheckpointConfig :=
  { filepath := "/tmp/checkpoint", monitor := "val_accuracy", save_best_only := true }

/-- The path passed to `model.load_weights` (script line 262). -/
def load_weights_path : String := "/tmp/checkpoint"

/-- The arguments of the `model.fit` call (script lines 253-260): the data
is the training partition, and `validation_split=0.15` holds out that
fraction of it for the validation metric. -/
structure FitConfig where
  x : DataPart
  batch : Nat
  epochs : Nat
  validation_split : ℚ

def fitConfig : FitConfig :=
  { x := DataPart.train, batch := batch_size, epochs := num_epochs,
    validation_split := 15 / 100 }

/-- Loss configuration `SparseCategoricalCrossentropy(from_logits=True)`
(script line 241). -/
structure LossConfig where
  from_logits : Bool

def lossConfig : LossConfig := { from_logits := true }

/-- The checkpoint callback's improvement test: strictly greater than the
best monitored value so far, any value beating the initial `-∞`. -/
def improves (best : Option ℚ) (acc : ℚ) : Bool :=
  match best with
  | none => true
  | some b => decide (b < acc)

/-- The events of `model.fit`: per epoch, training over the fit data, the
validation pass over the held-out fraction of that same data, and a
checkpoint write iff the callback sees an improvement. -/
def fitEvents (part : DataPart) : List ℚ → Option ℚ → Nat → List Ev
  | [], _, _ => []
  | acc :: rest, best, e =>
      Ev.trainEpoch part e :: Ev.validate part e acc ::
        (if improves best acc then
          Ev.ckptWrite e :: fitEvents part rest (some acc) (e + 1)
        else fitEvents part rest best (e + 1))

/-- The whole `run_experiment` trace: `fit` on the training partition, then
one `load_weights`, then one `evaluate` on the test partition. -/
def runExperimentEvents (valAccs : List ℚ) : List Ev :=
  fitEvents fitConfig.x valAccs none 0 ++ [Ev.ckptRead, Ev.evaluate DataPart.test]

/-- The epochs at which the trace writes the checkpoint. -/
def writeEpochs (valAccs : List ℚ) : List Nat :=
  (runExperimentEvents valAccs).filterMap fun ev =>
    match ev with
    | Ev.ckptWrite e => some e
    | _ => none

/-- Epoch `e` sets a new record: its validation accuracy strictly exceeds
every earlier epoch's. -/
def isNewBest (accs : List ℚ) (e : Nat) : Bool :=
  (accs.take e).all fun x => decide (x < accs.getD e 0)

def recordEpochs (accs : List ℚ) : List Nat :=
  (List.range accs.length).filter (isNewBest accs)

/-- Generalization of `isNewBest` to a run starting from a given best-so-far
value: epoch `j` of `accs` improves both on every earlier epoch and on the
starting value. -/
def isNewBestFrom (best : Option ℚ) (accs : List ℚ) (j : Nat) : Bool :=
  ((accs.take j).all fun x => decide (x < accs.getD j 0)) &&
    improves best (accs.getD j 0)

/-- The data partition an event touches, if any. -/
def dataPartOf : Ev → Option DataPart
  | .trainEpoch p _ => some p
  | .validate p _ _ => some p
  | .evaluate p => some p
  | _ => none

def touchesTest (ev : Ev) : Bool := decide (dataPartOf ev = some DataPart.test)

/-! ## Theorems about patch extraction -/

theorem validGrid_eq_div (S P : Nat) (hP : 0 < P) : validGrid S P = S / P := by
  unfold validGrid
  rcases le_or_lt P S with h | h
  · rw [if_pos h]
    rcases Nat.exists_eq_add_of_le h with ⟨k, rfl⟩
    rw [Nat.add_sub_cancel_left]
    rw [Nat.add_div_left _ hP, Nat.add_comm]
  · rw [if_neg (not_le.mpr h), Nat.div_eq_of_lt h]

theorem patchAt_length (P C : Nat) (img : Nat → Nat → Nat → Int) (i j : Nat) :
    (patchAt P C img i j).length = P ^ 2 * C := by
  unfold patchAt
  simp [List.length_flatMap, Function.comp_def, List.sum_const_nat]
  ring

theorem extractPatches_length (S P C : Nat) (hP : 0 < P)
    (img : Nat → Nat → Nat → Int) :
    (extractPatches S P C img).length = (S / P) ^ 2 := by
  unfold extractPatches
  simp [List.length_flatMap, Function.comp_def, List.sum_const_nat,
    validGrid_eq_div S P hP]
  ring

theorem mem_extractPatches {S P C : Nat} {img : Nat → Nat → Nat → Int}
    {p : List Int} (hp : p ∈ extractPatches S P C img) :
    ∃ i j, i < validGrid S P ∧ j < validGrid S P ∧ p = patchAt P C img i j := by
  unfold extractPatches at hp
  rw [List.mem_flatMap] at hp
  obtain ⟨i, hi, hp⟩ := hp
  rw [List.mem_map] at hp
  obtain ⟨j, hj, rfl⟩ := hp
  exact ⟨i, j, List.mem_range.mp hi, List.mem_range.mp hj, rfl⟩

theorem mem_patchAt {P C : Nat} {img : Nat → Nat → Nat → Int} {i j : Nat}
    {v : Int} (hv : v ∈ patchAt P C img i j) :
    ∃ di dj c, di < P ∧ dj < P ∧ c < C ∧ v = img (i * P + di) (j * P + dj) c := by
  unfold patchAt at hv
  rw [List.mem_flatMap] at hv
  obtain ⟨di, hdi, hv⟩ := hv
  rw [List.mem_flatMap] at hv
  obtain ⟨dj, hdj, hv⟩ := hv
  rw [List.mem_map] at hv
  obtain ⟨c, hc, rfl⟩ := hv
  exact ⟨di, dj, c, List.mem_range.mp hdi, List.mem_range.mp hdj,
    List.mem_range.mp hc, rfl⟩

/-- C2: for every image of size S×S with C channels and every patch size P
with P dividing S, `Patches.call` returns exactly (S/P)² patches, and every
returned patch is a flattened vector of length P²·C. -/
theorem patches_call_count_and_patch_length (S P C : Nat)
    (img : Nat → Nat → Nat → Int) (hP : 0 < P) (_hdvd : P ∣ S) :
    (extractPatches S P C img).length = (S / P) ^ 2 ∧
    ∀ p ∈ extractPatches S P C img, p.length = P ^ 2 * C := by
  refine ⟨extractPatches_length S P C hP img, fun p hp => ?_⟩
  obtain ⟨i, j, -, -, rfl⟩ := mem_extractPatches hp
  exact patchAt_length P C img i j

theorem patches_call_count_and_patch_length_witness :
    0 < 2 ∧ (2 ∣ 4) ∧
    ((extractPatches 4 2 3 (fun _ _ _ => 0)).length = (4 / 2) ^ 2 ∧
      ∀ p ∈ extractPatches 4 2 3 (fun _ _ _ => 0), p.length = 2 ^ 2 * 3) :=
  ⟨by decide, by decide,
    patches_call_count_and_patch_length 4 2 3 (fun _ _ _ => 0)
      (by decide) (by decide)⟩

/-- C1 counterexample: on a 5×5 single-channel image with patch size 2
(5 not divisible by 2), patch extraction raises no error and is not blocked
by any configuration-time validation: it silently returns the smaller 2×2
grid of 4 patches, and the bottom-right pixel value `demoImg 4 4 0 = 36` is
dropped — it appears in no returned patch. -/
theorem patches_truncation_counterexample :
    ¬ (2 ∣ 5) ∧
    (extractPatches 5 2 1 demoImg).length = 4 ∧
    (8 * 4 + 4 : Int) = demoImg 4 4 0 ∧
    ∀ p ∈ extractPatches 5 2 1 demoImg, (8 * 4 + 4 : Int) ∉ p := by decide

/-- C1 amended: when the image size S is not divisible by the patch size P,
`Patches.call` does not fail; `tf.image.extract_patches` with `VALID`
padding silently truncates the image to the smaller ⌊S/P⌋ × ⌊S/P⌋ patch
grid, every extracted value coming from the top-left ⌊S/P⌋·P square, which
is strictly smaller than the image. -/
theorem patches_nondivisible_silently_truncates (S P C : Nat)
    (img : Nat → Nat → Nat → Int) (hP : 0 < P) (hnd : ¬ P ∣ S) :
    (extractPatches S P C img).length = (S / P) ^ 2 ∧
    S / P * P < S ∧
    ∀ p ∈ extractPatches S P C img, ∀ v ∈ p,
      ∃ r c ch, r < S / P * P ∧ c < S / P * P ∧ ch < C ∧ v = img r c ch := by
  refine ⟨extractPatches_length S P C hP img, ?_, ?_⟩
  · refine lt_of_le_of_ne (Nat.div_mul_le_self S P) fun h => hnd ?_
    rw [← h]
    exact dvd_mul_left P (S / P)
  · intro p hp v hv
    obtain ⟨i, j, hi, hj, rfl⟩ := mem_extractPatches hp
    rw [validGrid_eq_div S P hP] at hi hj
    obtain ⟨di, dj, c, hdi, hdj, hc, rfl⟩ := mem_patchAt hv
    refine ⟨i * P + di, j * P + dj, c, ?_, ?_, hc, rfl⟩
    · calc i * P + di < (i + 1) * P := by
            rw [Nat.succ_mul]; exact Nat.add_lt_add_left hdi _
        _ ≤ S / P * P := Nat.mul_le_mul_right P (Nat.succ_le_of_lt hi)
    · calc j * P + dj < (j + 1) * P := by
            rw [Nat.succ_mul]; exact Nat.add_lt_add_left hdj _
        _ ≤ S / P * P := Nat.mul_le_mul_right P (Nat.succ_le_of_lt hj)

theorem patches_nondivisible_silently_truncates_witness :
    0 < 2 ∧ ¬ (2 ∣ 5) ∧
    ((extractPatches 5 2 1 demoImg).length = (5 / 2) ^ 2 ∧
      5 / 2 * 2 < 5 ∧
      ∀ p ∈ extractPatches 5 2 1 demoImg, ∀ v ∈ p,
        ∃ r c ch, r < 5 / 2 * 2 ∧ c < 5 / 2 * 2 ∧ ch < 1 ∧ v = demoImg r c ch) :=
  ⟨by decide, by decide,
    patches_nondivisible_silently_truncates 5 2 1 demoImg (by decide) (by decide)⟩

/-! ## Theorems about patch encoding -/

theorem denseApply_length (W : List (List Int)) (b : List Int) (x : List Int) :
    (denseApply W b x).length = min W.length b.length :=
  List.length_zipWith _ _ _

theorem vecSub_vecAdd (a b : List Int) :
    vecSub (vecAdd a b) a = b.take a.length := by
  induction a generalizing b with
  | nil => simp [vecAdd, vecSub]
  | cons x xs ih =>
    cases b with
    | nil => simp [vecAdd, vecSub]
    | cons y ys =>
        simp only [vecAdd, vecSub] at ih ⊢
        simp [ih]

theorem call_getD (e : PatchEncoder) (s : List (List Int)) (i : Nat)
    (hs : i < s.length) (hn : i < e.num_patches) :
    (e.call s).getD i [] =
      vecAdd (denseApply e.projW e.projB (s.getD i [])) (e.posTable.getD i []) := by
  have hlen : i < (e.call s).length := by
    unfold PatchEncoder.call
    rw [List.length_zipWith, List.length_range]
    omega
  rw [List.getD_eq_getElem _ _ hlen]
  unfold PatchEncoder.call
  rw [List.getElem_zipWith, List.getElem_range, List.getD_eq_getElem _ _ hs]

theorem positionalOffset_eq_posTable (e : PatchEncoder) (s : List (List Int))
    (i : Nat) (hs : i < s.length) (hn : i < e.num_patches) :
    positionalOffset e s i =
      (e.posTable.getD i []).take (min e.projW.length e.projB.length) := by
  unfold positionalOffset
  rw [call_getD e s i hs hn, vecSub_vecAdd, denseApply_length]

/-- C3: the positional offset `PatchEncoder.call` adds at patch index `i`
depends only on `i` and the learned parameters, never on patch content: for
the same encoder, two runs over different patch sequences add the same
offset at the same index. -/
theorem positional_offset_content_invariant (e : PatchEncoder)
    (s1 s2 : List (List Int)) (i : Nat)
    (h1 : i < s1.length) (h2 : i < s2.length) (hn : i < e.num_patches) :
    positionalOffset e s1 i = positionalOffset e s2 i := by
  rw [positionalOffset_eq_posTable e s1 i h1 hn,
    positionalOffset_eq_posTable e s2 i h2 hn]

theorem positional_offset_content_invariant_witness :
    (0 : Nat) < 2 ∧ (0 : Nat) < 2 ∧ (0 : Nat) < 2 ∧
    positionalOffset ⟨2, [[1], [2]], [0], [[10], [20]]⟩ [[1], [2]] 0 =
      positionalOffset ⟨2, [[1], [2]], [0], [[10], [20]]⟩ [[3], [5]] 0 :=
  ⟨by decide, by decide, by decide,
    positional_offset_content_invariant ⟨2, [[1], [2]], [0], [[10], [20]]⟩
      [[1], [2]] [[3], [5]] 0 (by decide) (by decide) (by decide)⟩

/-! ## Theorems about the layer graph -/

theorem shapeOf_mlp_units (x : Expr) (n : Nat)
    (h : shapeOf x = some [n, projection_dims]) :
    shapeOf (mlp x transformer_units (1 / 10)) = some [n, projection_dims] := by
  simp [mlp, transformer_units, shapeOf, h, List.dropLast]

theorem shapeOf_add_same (a b : Expr) (s : List Nat)
    (ha : shapeOf a = some s) (hb : shapeOf b = some s) :
    shapeOf (Expr.add a b) = some s := by
  have heq : shapeOf (Expr.add a b) =
      (match shapeOf a, shapeOf b with
        | some s1, some s2 => if s1 = s2 then some s1 else none
        | _, _ => none) := rfl
  rw [heq, ha, hb]
  simp

theorem shapeOf_attn_same (hd kd : Nat) (r : ℚ) (q kv : Expr) (n d : Nat)
    (hq : shapeOf q = some [n, d]) (hkv : shapeOf kv = some [n, d]) :
    shapeOf (Expr.attn hd kd r q kv) = some [n, d] := by
  have heq : shapeOf (Expr.attn hd kd r q kv) =
      (match shapeOf q, shapeOf kv with
        | some [tq, dq], some [_, _] => some [tq, dq]
        | _, _ => none) := rfl
  rw [heq, hq, hkv]

theorem transformerBlock_shape (x : Expr) (n : Nat)
    (h : shapeOf x = some [n, projection_dims]) :
    shapeOf (transformerBlock x) = some [n, projection_dims] := by
  have hattn : shapeOf (Expr.attn num_heads projection_dims (1 / 10)
      (Expr.norm x) (Expr.norm x)) = some [n, projection_dims] :=
    shapeOf_attn_same _ _ _ _ _ n projection_dims h h
  have hx2 : shapeOf (Expr.add (Expr.attn num_heads projection_dims (1 / 10)
      (Expr.norm x) (Expr.norm x)) x) = some [n, projection_dims] :=
    shapeOf_add_same _ _ _ hattn h
  have hmlp : shapeOf (mlp (Expr.norm (Expr.add
      (Expr.attn num_heads projection_dims (1 / 10) (Expr.norm x) (Expr.norm x))
      x)) transformer_units (1 / 10)) = some [n, projection_dims] :=
    shapeOf_mlp_units _ n hx2
  exact shapeOf_add_same _ _ _ hmlp hx2

theorem applyBlocks_shape (k : Nat) (x : Expr) (n : Nat)
    (h : shapeOf x = some [n, projection_dims]) :
    shapeOf (applyBlocks k x) = some [n, projection_dims] := by
  induction k generalizing x with
  | zero => exact h
  | succ k ih => exact ih _ (transformerBlock_shape x n h)

/-- C5: every transformer block applies its sublayers in exactly the
pre-norm order the spec states — layer normalization, self-attention,
residual add with the block input, layer normalization, feed-forward MLP
(two dense layers with gelu and dropout), residual add — and the model's
block stack is the `transfomer_layers`-fold iteration of that one block. -/
theorem transformer_block_prenorm_order (x : Expr) :
    transformerBlock x = specTransformerBlock x ∧
    applyBlocks transfomer_layers x =
      specTransformerBlock (specTransformerBlock (specTransformerBlock
        (specTransformerBlock (specTransformerBlock (specTransformerBlock
          (specTransformerBlock (specTransformerBlock x))))))) :=
  ⟨rfl, rfl⟩

/-- C6: the classification head applies, in order, layer normalization,
flatten of the whole patch sequence, dropout, the MLP, and a final dense
layer with no activation; the training loss is configured with
`from_logits=True`, i.e. for unnormalized per-class scores. -/
theorem classifier_head_logits_order (x : Expr) :
    vitHead x = specClassifierHead x ∧
    (∃ inner, vitHead x = Expr.dense num_classes Activation.linear inner) ∧
    lossConfig.from_logits = true :=
  ⟨rfl, ⟨_, rfl⟩, rfl⟩

/-- C7: each transformer block maps a sequence of shape
(num_patches, projection_dim) to a sequence of the same shape, and the shape
is therefore preserved through any number of stacked blocks. -/
theorem transformer_block_preserves_shape (x : Expr) (n : Nat)
    (h : shapeOf x = some [n, projection_dims]) :
    shapeOf (transformerBlock x) = some [n, projection_dims] ∧
    ∀ k, shapeOf (applyBlocks k x) = some [n, projection_dims] :=
  ⟨transformerBlock_shape x n h, fun k => applyBlocks_shape k x n h⟩

theorem transformer_block_preserves_shape_witness :
    shapeOf encodedPatchesExpr = some [64, projection_dims] ∧
    shapeOf (transformerBlock encodedPatchesExpr) = some [64, projection_dims] ∧
    shapeOf (applyBlocks transfomer_layers encodedPatchesExpr) =
      some [64, projection_dims] :=
  ⟨by decide,
    (transformer_block_preserves_shape encodedPatchesExpr 64 (by decide)).1,
    (transformer_block_preserves_shape encodedPatchesExpr 64 (by decide)).2
      transfomer_layers⟩

/-- C8: with image_size=32 and patch_size=4 the computed num_patches is 64,
and the classifier's output for a batch of B images has shape
(B, num_classes). -/
theorem classifier_output_shape (B : Nat) :
    num_patches = 64 ∧ outputShapeForBatch B = some [B, num_classes] := by
  refine ⟨rfl, ?_⟩
  have h : shapeOf create_vit_classifier = some [num_classes] := by decide
  simp [outputShapeForBatch, h]

/-- C10: `transformer_units` is `[projection_dims * 2, projection_dims]`,
its last entry equals `projection_dims`, so the per-block feed-forward MLP
returns last dimension `projection_dims` and both residual adds of every
block are shape-compatible (the block's shape computation succeeds). -/
theorem transformer_units_last_matches_projection :
    transformer_units = [projection_dims * 2, projection_dims] ∧
    transformer_units.getLast? = some projection_dims ∧
    ∀ x n, shapeOf x = some [n, projection_dims] →
      shapeOf (mlp x transformer_units (1 / 10)) = some [n, projection_dims] ∧
      (shapeOf (transformerBlock x)).isSome = true := by
  refine ⟨rfl, rfl, fun x n h => ⟨shapeOf_mlp_units x n h, ?_⟩⟩
  rw [transformerBlock_shape x n h]
  rfl

theorem transformer_units_last_matches_projection_witness :
    shapeOf encodedPatchesExpr = some [64, projection_dims] ∧
    shapeOf (mlp encodedPatchesExpr transformer_units (1 / 10)) =
      some [64, projection_dims] ∧
    (shapeOf (transformerBlock encodedPatchesExpr)).isSome = true :=
  ⟨by decide,
    (transformer_units_last_matches_projection.2.2 encodedPatchesExpr 64
      (by decide)).1,
    (transformer_units_last_matches_projection.2.2 encodedPatchesExpr 64
      (by decide)).2⟩

/-! ## Theorems about the training trace -/

theorem fitEvents_mem (part : DataPart) (accs : List ℚ) :
    ∀ (best : Option ℚ) (e0 : Nat) (ev : Ev),
      ev ∈ fitEvents part accs best e0 →
      (∃ e, ev = Ev.trainEpoch part e) ∨ (∃ e a, ev = Ev.validate part e a) ∨
        ∃ e, ev = Ev.ckptWrite e := by
  induction accs with
  | nil => intro best e0 ev h; simp [fitEvents] at h
  | cons acc rest ih =>
      intro best e0 ev h
      simp only [fitEvents] at h
      rcases List.mem_cons.mp h with rfl | h
      · exact Or.inl ⟨e0, rfl⟩
      rcases List.mem_cons.mp h with rfl | h
      · exact Or.inr (Or.inl ⟨e0, acc, rfl⟩)
      by_cases hba : improves best acc = true
      · rw [if_pos hba] at h
        rcases List.mem_cons.mp h with rfl | h
        · exact Or.inr (Or.inr ⟨e0, rfl⟩)
        · exact ih _ _ _ h
      · rw [if_neg hba] at h
        exact ih _ _ _ h

theorem ckptRead_not_mem_fitEvents (part : DataPart) (accs : List ℚ)
    (best : Option ℚ) (e0 : Nat) : Ev.ckptRead ∉ fitEvents part accs best e0 := by
  intro h
  rcases fitEvents_mem part accs best e0 _ h with ⟨e, he⟩ | ⟨e, a, he⟩ | ⟨e, he⟩ <;>
    simp at he

theorem evaluate_not_mem_fitEvents (part : DataPart) (accs : List ℚ)
    (best : Option ℚ) (e0 : Nat) (p : DataPart) :
    Ev.evaluate p ∉ fitEvents part accs best e0 := by
  intro h
  rcases fitEvents_mem part accs best e0 _ h with ⟨e, he⟩ | ⟨e, a, he⟩ | ⟨e, he⟩ <;>
    simp at he

theorem improves_trans_true {best : Option ℚ} {acc v : ℚ}
    (hba : improves best acc = true) (hav : acc < v) : improves best v = true := by
  cases best with
  | none => rfl
  | some b =>
      simp only [improves, decide_eq_true_eq] at hba ⊢
      exact lt_trans hba hav

theorem improves_false_le {b acc : ℚ} (h : improves (some b) acc = false) :
    acc ≤ b := by
  simpa only [improves, decide_eq_false_iff_not, not_lt] using h

theorem record_step_true {best : Option ℚ} {acc : ℚ}
    (hba : improves best acc = true) (A : Bool) (v : ℚ) :
    ((decide (acc < v) && A) && improves best v) = (A && improves (some acc) v) := by
  by_cases hav : acc < v
  · rw [improves_trans_true hba hav]
    simp [improves, hav, Bool.and_comm]
  · simp [improves, hav]

theorem record_step_false {b acc : ℚ}
    (hba : improves (some b) acc = false) (A : Bool) (v : ℚ) :
    ((decide (acc < v) && A) && improves (some b) v) = (A && improves (some b) v) := by
  by_cases hbv : b < v
  · have hav : acc < v := lt_of_le_of_lt (improves_false_le hba) hbv
    simp [improves, hbv, hav]
  · simp [improves, hbv]

theorem isNewBestFrom_zero (best : Option ℚ) (acc : ℚ) (rest : List ℚ) :
    isNewBestFrom best (acc :: rest) 0 = improves best acc := by
  simp [isNewBestFrom]

theorem isNewBestFrom_succ_true {best : Option ℚ} {acc : ℚ}
    (hba : improves best acc = true) (rest : List ℚ) (j : Nat) :
    isNewBestFrom best (acc :: rest) (j + 1) = isNewBestFrom (some acc) rest j := by
  simp only [isNewBestFrom, List.take_succ_cons, List.getD_cons_succ, List.all_cons]
  exact record_step_true hba _ _

theorem isNewBestFrom_succ_false {b acc : ℚ}
    (hba : improves (some b) acc = false) (rest : List ℚ) (j : Nat) :
    isNewBestFrom (some b) (acc :: rest) (j + 1) = isNewBestFrom (some b) rest j := by
  simp only [isNewBestFrom, List.take_succ_cons, List.getD_cons_succ, List.all_cons]
  exact record_step_false hba _ _

theorem isNewBestFrom_none (accs : List ℚ) :
    isNewBestFrom none accs = isNewBest accs := by
  funext j
  simp [isNewBestFrom, isNewBest, improves]

theorem fitEvents_filterMap_writes (part : DataPart) (accs : List ℚ) :
    ∀ (best : Option ℚ) (e0 : Nat),
    (fitEvents part accs best e0).filterMap (fun ev =>
        match ev with
        | Ev.ckptWrite e => some e
        | _ => none) =
      ((List.range accs.length).filter (isNewBestFrom best accs)).map (e0 + ·) := by
  induction accs with
  | nil => intro best e0; simp [fitEvents]
  | cons acc rest ih =>
      intro best e0
      simp only [fitEvents, List.filterMap_cons]
      rw [List.length_cons, List.range_succ_eq_map, List.filter_cons,
        isNewBestFrom_zero, List.filter_map]
      cases hba : improves best acc with
      | true =>
          rw [if_pos rfl, if_pos rfl]
          simp only [List.filterMap_cons]
          rw [ih (some acc) (e0 + 1)]
          simp only [Function.comp_def, Nat.succ_eq_add_one]
          simp only [isNewBestFrom_succ_true hba]
          simp only [List.map_cons, List.map_map, Nat.add_zero, Function.comp_def]
          exact congrArg (e0 :: ·) (List.map_congr_left fun j _ => by omega)
      | false =>
          cases best with
          | none => simp [improves] at hba
          | some b =>
              rw [if_neg Bool.false_ne_true, if_neg Bool.false_ne_true]
              rw [ih (some b) (e0 + 1)]
              simp only [Function.comp_def, Nat.succ_eq_add_one]
              simp only [isNewBestFrom_succ_false hba]
              simp only [List.map_map, Function.comp_def]
              exact List.map_congr_left fun j _ => by omega

/-- C4: during training, the checkpoint callback writes the parameters
exactly at the epochs whose validation accuracy strictly exceeds the best
value seen so far (every write overwriting the single checkpoint slot), and
after training completes the checkpoint is read back exactly once, before
the single evaluation pass on the held-out test data: the trace is the fit
events, which contain no read and no evaluation, followed by one read and
then one test evaluation. -/
theorem checkpoint_write_read_discipline (accs : List ℚ) :
    writeEpochs accs = recordEpochs accs ∧
    (runExperimentEvents accs).count Ev.ckptRead = 1 ∧
    (runExperimentEvents accs).count (Ev.evaluate DataPart.test) = 1 ∧
    runExperimentEvents accs =
      fitEvents DataPart.train accs none 0 ++
        [Ev.ckptRead, Ev.evaluate DataPart.test] ∧
    Ev.ckptRead ∉ fitEvents DataPart.train accs none 0 ∧
    ∀ p, Ev.evaluate p ∉ fitEvents DataPart.train accs none 0 := by
  refine ⟨?_, ?_, ?_, rfl, ckptRead_not_mem_fitEvents _ _ _ _,
    fun p => evaluate_not_mem_fitEvents _ _ _ _ p⟩
  · unfold writeEpochs runExperimentEvents
    rw [List.filterMap_append, fitEvents_filterMap_writes, isNewBestFrom_none]
    simp only [List.filterMap_cons, List.filterMap_nil, List.append_nil]
    have hid : (fun x => 0 + x) = (id : Nat → Nat) := funext fun x => Nat.zero_add x
    rw [hid, List.map_id, recordEpochs]
  · show (fitEvents fitConfig.x accs none 0 ++
      [Ev.ckptRead, Ev.evaluate DataPart.test]).count Ev.ckptRead = 1
    rw [List.count_append, List.count_eq_zero.mpr (ckptRead_not_mem_fitEvents _ _ _ _)]
    decide
  · show (fitEvents fitConfig.x accs none 0 ++
      [Ev.ckptRead, Ev.evaluate DataPart.test]).count (Ev.evaluate DataPart.test) = 1
    rw [List.count_append,
      List.count_eq_zero.mpr (evaluate_not_mem_fitEvents _ _ _ _ _)]
    decide

theorem checkpoint_write_read_discipline_witness :
    writeEpochs [1 / 2, 1 / 4, 3 / 4] = recordEpochs [1 / 2, 1 / 4, 3 / 4] :=
  (checkpoint_write_read_discipline [1 / 2, 1 / 4, 3 / 4]).1

/-- C9: the fit call receives the training partition with
validation_split = 0.15, every validation event of the run is computed on
data carved from the training partition, and the test partition is touched
by exactly one event of the whole run — the final evaluation, which is the
last event of the trace. -/
theorem validation_split_and_test_isolation (accs : List ℚ) :
    fitConfig.x = DataPart.train ∧
    fitConfig.validation_split = 15 / 100 ∧
    (∀ p e a, Ev.validate p e a ∈ runExperimentEvents accs → p = DataPart.train) ∧
    (runExperimentEvents accs).filter touchesTest = [Ev.evaluate DataPart.test] ∧
    (runExperimentEvents accs).getLast? = some (Ev.evaluate DataPart.test) := by
  refine ⟨rfl, rfl, ?_, ?_, ?_⟩
  · intro p e a h
    rcases List.mem_append.mp h with h | h
    · rcases fitEvents_mem _ accs none 0 _ h with ⟨e2, he⟩ | ⟨e2, a2, he⟩ | ⟨e2, he⟩
      · exact absurd he (by simp)
      · simp only [Ev.validate.injEq] at he
        exact he.1.trans rfl
      · exact absurd he (by simp)
    · simp at h
  · have h1 : (fitEvents DataPart.train accs none 0).filter touchesTest = [] := by
      rw [List.filter_eq_nil_iff]
      intro ev hev
      rcases fitEvents_mem _ _ _ _ _ hev with ⟨e, rfl⟩ | ⟨e, a, rfl⟩ | ⟨e, rfl⟩ <;>
        simp [touchesTest, dataPartOf]
    calc (runExperimentEvents accs).filter touchesTest
        = (fitEvents DataPart.train accs none 0).filter touchesTest ++
            [Ev.ckptRead, Ev.evaluate DataPart.test].filter touchesTest := by
          rw [← List.filter_append]
          rfl
      _ = [Ev.evaluate DataPart.test] := by rw [h1]; rfl
  · rw [show runExperimentEvents accs = fitEvents DataPart.train accs none 0 ++
      [Ev.ckptRead, Ev.evaluate DataPart.test] from rfl, List.getLast?_append]
    rfl

theorem validation_split_and_test_isolation_witness :
    (runExperimentEvents [1 / 2, 1 / 4]).filter touchesTest =
      [Ev.evaluate DataPart.test] :=
  (validation_split_and_test_isolation [1 / 2, 1 / 4]).2.2.2.1
